import Mathlib

set_option maxRecDepth 100000

/-!
Shallow embedding of the two Advent-of-Code 2023 solvers of this
repository (src/bin/01.rs, "Trebuchet?!", and src/bin/02.rs,
"Cube Conundrum"), together with proofs of the specification claims.

Machine integers (Rust u32) are modelled as Nat with explicit reduction
modulo 2^32 where the source performs u32 arithmetic; fallible Rust
functions returning Result are modelled as Except.
-/

/-- Modulus of 32-bit unsigned arithmetic. -/
def U32MOD : Nat := 2 ^ 32

/-- Wrapping u32 addition. -/
def u32add (a b : Nat) : Nat := (a + b) % U32MOD

/-- Wrapping u32 multiplication. -/
def u32mul (a b : Nat) : Nat := (a * b) % U32MOD

/-- Day 1 parse error: carries no payload, like the Rust unit struct. -/
structure ParseCalibrationError : Type

instance : DecidableEq ParseCalibrationError :=
  fun a b => isTrue (by cases a; cases b; rfl)

instance : Subsingleton ParseCalibrationError :=
  ⟨fun a b => by cases a; cases b; rfl⟩

/-- The alternation of the Day 1 regex, in source order:
ascii digits 1-9 first, then the spelled-out names one..nine. -/
def digitVocab : List String :=
  ["1", "2", "3", "4", "5", "6", "7", "8", "9",
   "one", "two", "three", "four", "five", "six", "seven", "eight", "nine"]

/-- A match of the Day 1 regex starting exactly at the head of `s`:
the first vocabulary token that is a prefix of `s`.  At most one token of
the vocabulary can match at a given position (the nine words have
pairwise incompatible shapes and no word starts with a digit), so this is
also the regex-crate leftmost-first choice. -/
def tokenAt (s : List Char) : Option String :=
  digitVocab.find? (fun t => t.data.isPrefixOf s)

/-- One step of `Regex::find_iter`: scan left to right for the leftmost
match, emit it, and resume immediately after its end (matches are
non-overlapping).  Fuel-indexed so that the recursion is structural;
`fuel = s.length` always suffices since every step consumes at least one
character. -/
def scanTokensAux : Nat → List Char → List String
  | 0, _ => []
  | _ + 1, [] => []
  | fuel + 1, c :: rest =>
    match tokenAt (c :: rest) with
    | some t => t :: scanTokensAux fuel (List.drop (t.length - 1) rest)
    | none => scanTokensAux fuel rest

/-- All non-overlapping leftmost matches of the Day 1 regex, in order of
start position: the embedding of `re.find_iter(line)` of src/bin/01.rs. -/
def scanTokens (s : List Char) : List String :=
  scanTokensAux s.length s

/-- Embedding of `parse_calibration_digit` of src/bin/01.rs. -/
def parse_calibration_digit (d : String) : Except ParseCalibrationError Nat :=
  match d with
  | "1" | "one" => .ok 1
  | "2" | "two" => .ok 2
  | "3" | "three" => .ok 3
  | "4" | "four" => .ok 4
  | "5" | "five" => .ok 5
  | "6" | "six" => .ok 6
  | "7" | "seven" => .ok 7
  | "8" | "eight" => .ok 8
  | "9" | "nine" => .ok 9
  | _ => .error ⟨⟩

/-- Embedding of `calibration` of src/bin/01.rs: collect all matches,
take the first and the last, map them to digit values, combine as
first * 10 + last in u32 arithmetic. -/
def calibration (line : String) : Except ParseCalibrationError Nat :=
  let digits := scanTokens line.data
  match digits.head? with
  | none => .error ⟨⟩
  | some firstTok =>
    match parse_calibration_digit firstTok with
    | .error e => .error e
    | .ok first =>
      match digits.getLast? with
      | none => .error ⟨⟩
      | some lastTok =>
        match parse_calibration_digit lastTok with
        | .error e => .error e
        | .ok last => .ok (u32add (u32mul first 10) last)

/-- Embedding of `Iterator::sum` over `Result<u32, E>` items: fold the
items left to right, short-circuiting at the first error, accumulating
with wrapping u32 addition. -/
def sumResults {E : Type} (acc : Nat) : List (Except E Nat) → Except E Nat
  | [] => .ok acc
  | .error e :: _ => .error e
  | .ok v :: xs => sumResults (u32add acc v) xs

/-- Embedding of `calibration_sum` of src/bin/01.rs: drop empty lines,
parse each line, sum fail-fast. -/
def calibration_sum (lines : List String) : Except ParseCalibrationError Nat :=
  sumResults 0 ((lines.filter (fun x => !x.isEmpty)).map calibration)

/-- Day 2 parse error: carries no payload, like the Rust unit struct. -/
structure ParseGameDataError : Type

instance : DecidableEq ParseGameDataError :=
  fun a b => isTrue (by cases a; cases b; rfl)

instance : Subsingleton ParseGameDataError :=
  ⟨fun a b => by cases a; cases b; rfl⟩

/-- Embedding of the `Bag` struct of src/bin/02.rs. -/
structure Bag where
  red : Nat
  green : Nat
  blue : Nat

/-- Embedding of the `GameData` struct of src/bin/02.rs. -/
structure GameData where
  id : Nat
  red : Nat
  green : Nat
  blue : Nat

instance : DecidableEq GameData :=
  fun a b => by
    cases a; cases b
    exact decidable_of_iff _ (Iff.of_eq (GameData.mk.injEq ..)).symm

/-- Maximal run of ascii decimal digits at the head of `s` (the greedy
match of a leading `\d+`). -/
def digitRun (s : List Char) : List Char := s.takeWhile (fun c => c.isDigit)

/-- Numeric value of a decimal digit string. -/
def natOfDigits (ds : List Char) : Nat :=
  ds.foldl (fun a c => 10 * a + (c.toNat - 48)) 0

/-- Embedding of `str::parse::<u32>` on a capture that is known to be a
nonempty digit run: succeeds with the numeric value when it fits in u32,
fails (with the day's error, after the source's `ok_or`/match) otherwise. -/
def parseU32 (ds : List Char) : Except ParseGameDataError Nat :=
  if natOfDigits ds < U32MOD then .ok (natOfDigits ds) else .error ⟨⟩

/-- A match of the regex `Game (\d+):(.*)` starting exactly at the head
of `s`: the literal `Game `, a maximal nonempty digit run (group 1), a
colon, then everything up to the end of the haystack or the first
newline (group 2, since `.` does not match a newline). -/
def matchIdAt (s : List Char) : Option (List Char × List Char) :=
  if "Game ".data.isPrefixOf s then
    let rest := s.drop 5
    let ds := digitRun rest
    if ds.isEmpty then none
    else
      match rest.drop ds.length with
      | ':' :: rest2 => some (ds, rest2.takeWhile (fun c => c != '\n'))
      | _ => none
  else none

/-- Embedding of `re_id.captures(s)`: the match of `Game (\d+):(.*)` at
the leftmost possible start position (the regex is unanchored). -/
def findId : List Char → Option (List Char × List Char)
  | [] => none
  | c :: rest =>
    match matchIdAt (c :: rest) with
    | some r => some r
    | none => findId rest

/-- The color alternation of the regex `(\d+) (blue|red|green)`, in
source order. -/
def cubeColors : List String := ["blue", "red", "green"]

/-- A match of `(\d+) (blue|red|green)` starting exactly at the head of
`s`: a maximal nonempty digit run (group 1), one space, then one of the
three color words (group 2). -/
def matchCubeAt (s : List Char) : Option (List Char × String) :=
  let ds := digitRun s
  if ds.isEmpty then none
  else
    match s.drop ds.length with
    | ' ' :: rest =>
      match cubeColors.find? (fun c => c.data.isPrefixOf rest) with
      | some c => some (ds, c)
      | none => none
    | _ => none

/-- Embedding of `re_cube.captures(cube_info)`: leftmost match of
`(\d+) (blue|red|green)` (the regex is unanchored). -/
def findCube : List Char → Option (List Char × String)
  | [] => none
  | c :: rest =>
    match matchCubeAt (c :: rest) with
    | some r => some r
    | none => findCube rest

/-- Embedding of Rust `str::split` with a one-character separator:
the list of (possibly empty) chunks between separators. -/
def splitOnChar (sep : Char) : List Char → List (List Char)
  | [] => [[]]
  | c :: rest =>
    if c = sep then [] :: splitOnChar sep rest
    else
      match splitOnChar sep rest with
      | [] => [[c]]
      | h :: t => (c :: h) :: t

/-- Embedding of Rust `str::trim`: remove leading and trailing
whitespace characters. -/
def trimChars (s : List Char) : List Char :=
  ((s.dropWhile Char.isWhitespace).reverse.dropWhile Char.isWhitespace).reverse

/-- Body of the inner loop of `GameData::from_str`: find the cube match
in one comma-chunk, dispatch on the captured color (in the source's arm
order red, green, blue), parse the quantity and update that color's
running maximum. -/
def processCube (st : Nat × Nat × Nat) (info : List Char) :
    Except ParseGameDataError (Nat × Nat × Nat) :=
  match findCube info with
  | none => .error ⟨⟩
  | some (num, color) =>
    if color = "red" then
      match parseU32 num with
      | .error e => .error e
      | .ok v => .ok (max st.1 v, st.2.1, st.2.2)
    else if color = "green" then
      match parseU32 num with
      | .error e => .error e
      | .ok v => .ok (st.1, max st.2.1 v, st.2.2)
    else if color = "blue" then
      match parseU32 num with
      | .error e => .error e
      | .ok v => .ok (st.1, st.2.1, max st.2.2 v)
    else .error ⟨⟩

/-- The inner loop of `GameData::from_str` over the comma-chunks of one
semicolon-group. -/
def processCubes (st : Nat × Nat × Nat) :
    List (List Char) → Except ParseGameDataError (Nat × Nat × Nat)
  | [] => .ok st
  | info :: rest =>
    match processCube st info with
    | .error e => .error e
    | .ok st2 => processCubes st2 rest

/-- The outer loop of `GameData::from_str` over the semicolon-groups:
each group is trimmed, split on commas and folded through the inner
loop. -/
def processGroups (st : Nat × Nat × Nat) :
    List (List Char) → Except ParseGameDataError (Nat × Nat × Nat)
  | [] => .ok st
  | info :: rest =>
    match processCubes st (splitOnChar ',' (trimChars info)) with
    | .error e => .error e
    | .ok st2 => processGroups st2 rest

/-- Embedding of `GameData::from_str` of src/bin/02.rs. -/
def GameData.from_str (s : String) : Except ParseGameDataError GameData :=
  match findId s.data with
  | none => .error ⟨⟩
  | some (idStr, content) =>
    match parseU32 idStr with
    | .error e => .error e
    | .ok id =>
      match processGroups (0, 0, 0) (splitOnChar ';' content) with
      | .error e => .error e
      | .ok (r, g, b) => .ok ⟨id, r, g, b⟩

/-- Embedding of `validate` of src/bin/02.rs. -/
def validate (data : GameData) (bag : Bag) : Bool :=
  decide (data.red ≤ bag.red) && decide (data.green ≤ bag.green) &&
    decide (data.blue ≤ bag.blue)

/-- Embedding of `cube_power` of src/bin/02.rs (u32 products). -/
def cube_power (data : GameData) : Nat :=
  u32mul (u32mul data.red data.green) data.blue

/-- Embedding of `collect::<Result<Vec<GameData>, _>>`: gather the
values in order, short-circuiting at the first error. -/
def collectGames :
    List (Except ParseGameDataError GameData) →
      Except ParseGameDataError (List GameData)
  | [] => .ok []
  | .error e :: _ => .error e
  | .ok v :: xs =>
    match collectGames xs with
    | .error e => .error e
    | .ok vs => .ok (v :: vs)

/-- Embedding of `game_id_sum` of src/bin/02.rs. -/
def game_id_sum (lines : List String) (bag : Bag) :
    Except ParseGameDataError Nat :=
  match collectGames ((lines.filter (fun x => !x.isEmpty)).map GameData.from_str) with
  | .error e => .error e
  | .ok gs =>
    sumResults 0 ((gs.filter (fun x => validate x bag)).map (fun x => Except.ok x.id))

/-- Embedding of `power_sum` of src/bin/02.rs. -/
def power_sum (lines : List String) : Except ParseGameDataError Nat :=
  match collectGames ((lines.filter (fun x => !x.isEmpty)).map GameData.from_str) with
  | .error e => .error e
  | .ok gs => sumResults 0 (gs.map (fun x => Except.ok (cube_power x)))

/-- A quantity-color pair of the spec grammar sentence
`"Game <id>: <group>;<group>;..."` where each group is a comma-separated
list of `"<qty> <color>"` pairs: the quantity as its digit string, the
color word. -/
structure SpecPair where
  qty : List Char
  color : String

instance : DecidableEq SpecPair :=
  fun a b => by
    cases a; cases b
    exact decidable_of_iff _ (Iff.of_eq (SpecPair.mk.injEq ..)).symm

/-- A whole line of the spec grammar, structurally: the id digit string
and the list of groups, each a list of pairs. -/
structure SpecGame where
  idStr : List Char
  groups : List (List SpecPair)

/-- The color set of the spec grammar. -/
def specColors : List String := ["red", "green", "blue"]

/-- Well-formedness of a grammar pair: a nonempty digit-string quantity
and a color from the color set. -/
abbrev SpecPairWF (p : SpecPair) : Prop :=
  p.qty ≠ [] ∧ (∀ c ∈ p.qty, c.isDigit = true) ∧ p.color ∈ specColors

/-- Well-formedness of a grammar line: nonempty digit-string id, at
least one group, every group nonempty with well-formed pairs. -/
abbrev SpecGameWF (g : SpecGame) : Prop :=
  g.idStr ≠ [] ∧ (∀ c ∈ g.idStr, c.isDigit = true) ∧ g.groups ≠ [] ∧
    ∀ grp ∈ g.groups, grp ≠ [] ∧ ∀ p ∈ grp, SpecPairWF p

/-- All numerals of the line fit in a u32. -/
abbrev SpecGameBounded (g : SpecGame) : Prop :=
  natOfDigits g.idStr < U32MOD ∧
    ∀ grp ∈ g.groups, ∀ p ∈ grp, natOfDigits p.qty < U32MOD

/-- Join chunks with a separator sequence between consecutive chunks. -/
def joinSep (sep : List Char) : List (List Char) → List Char
  | [] => []
  | [x] => x
  | x :: y :: rest => x ++ sep ++ joinSep sep (y :: rest)

/-- Render one pair as `"<qty> <color>"`. -/
def renderPair (p : SpecPair) : List Char := p.qty ++ ' ' :: p.color.data

/-- Render one group as the comma-separated list of its pairs. -/
def renderGroup (grp : List SpecPair) : List Char :=
  joinSep [',', ' '] (grp.map renderPair)

/-- Render a whole grammar line `"Game <id>: <group>; <group>; ..."`. -/
def renderGame (g : SpecGame) : List Char :=
  ("Game ").data ++ g.idStr ++ ':' :: ' ' :: joinSep [';', ' '] (g.groups.map renderGroup)

/-- Maximum quantity over the pairs of the given color (0 when the color
is absent). -/
def colorMaxList (ps : List SpecPair) (color : String) : Nat :=
  ((ps.filter (fun p => p.color == color)).map (fun p => natOfDigits p.qty)).foldr max 0

/-- Per-color maximum over all pairs of all groups of a grammar line. -/
def specColorMax (g : SpecGame) (color : String) : Nat :=
  colorMaxList g.groups.flatten color

/-- The per-pair state update performed by the parser loop, expressed on
the structured pair. -/
def updState (st : Nat × Nat × Nat) (p : SpecPair) : Nat × Nat × Nat :=
  if p.color = "red" then (max st.1 (natOfDigits p.qty), st.2.1, st.2.2)
  else if p.color = "green" then (st.1, max st.2.1 (natOfDigits p.qty), st.2.2)
  else if p.color = "blue" then (st.1, st.2.1, max st.2.2 (natOfDigits p.qty))
  else st

/-- Value of an `Except` result, defaulting to 0 on errors. -/
def okVal {E : Type} : Except E Nat → Nat
  | .ok v => v
  | .error _ => 0

theorem isPrefixOf_append_self (l₁ l₂ : List Char) : l₁.isPrefixOf (l₁ ++ l₂) = true := by
  induction l₁ with
  | nil => simp [List.isPrefixOf]
  | cons c t ih => simp [List.isPrefixOf, ih]

theorem takeWhile_append_all (p : Char → Bool) (l₁ l₂ : List Char)
    (h₁ : ∀ c ∈ l₁, p c = true)
    (h₂ : ∀ c, l₂.head? = some c → p c = false) :
    (l₁ ++ l₂).takeWhile p = l₁ := by
  induction l₁ with
  | nil =>
    cases l₂ with
    | nil => rfl
    | cons c t => simp [List.takeWhile_cons, h₂ c rfl]
  | cons c t ih =>
    have ht : ∀ x ∈ t, p x = true := fun x hx => h₁ x (List.mem_cons_of_mem _ hx)
    simp only [List.cons_append, List.takeWhile_cons, h₁ c (List.mem_cons_self _ _), if_true]
    rw [ih ht]

theorem takeWhile_all (p : Char → Bool) (l : List Char) (h : ∀ c ∈ l, p c = true) :
    l.takeWhile p = l := by
  have := takeWhile_append_all p l [] h (by intro c hc; cases hc)
  simpa using this

theorem ne_of_isDigit_of_not {c d : Char} (h : c.isDigit = true)
    (hd : d.isDigit = false) : c ≠ d := by
  rintro rfl
  rw [h] at hd
  cases hd

theorem not_whitespace_of_isDigit {c : Char} (h : c.isDigit = true) :
    c.isWhitespace = false := by
  have h1 : c ≠ ' ' := ne_of_isDigit_of_not h (by decide)
  have h2 : c ≠ '\t' := ne_of_isDigit_of_not h (by decide)
  have h3 : c ≠ '\r' := ne_of_isDigit_of_not h (by decide)
  have h4 : c ≠ '\n' := ne_of_isDigit_of_not h (by decide)
  simp [Char.isWhitespace, h1, h2, h3, h4]

theorem splitOnChar_of_not_mem {sep : Char} {l : List Char} (h : sep ∉ l) :
    splitOnChar sep l = [l] := by
  induction l with
  | nil => rfl
  | cons c t ih =>
    have hc : ¬(c = sep) := fun e => h (by simp [e])
    simp only [splitOnChar, if_neg hc]
    rw [ih (fun hm => h (by simp [hm]))]

theorem splitOnChar_append {sep : Char} {l₁ : List Char} (l₂ : List Char) (h : sep ∉ l₁) :
    splitOnChar sep (l₁ ++ sep :: l₂) = l₁ :: splitOnChar sep l₂ := by
  induction l₁ with
  | nil => simp [splitOnChar]
  | cons c t ih =>
    have hc : ¬(c = sep) := fun e => h (by simp [e])
    simp only [List.cons_append, splitOnChar, if_neg hc]
    rw [List.append_eq, ih (fun hm => h (by simp [hm]))]

theorem space_joinSep (sep : Char) (y : List Char) (rest : List (List Char)) :
    ' ' :: joinSep [sep, ' '] (y :: rest) = joinSep [sep, ' '] ((' ' :: y) :: rest) := by
  cases rest with
  | nil => rfl
  | cons z rr => simp [joinSep]

theorem splitOnChar_joinSep (sep : Char) (hsep : sep ≠ ' ') :
    ∀ (bodies : List (List Char)) (b : List Char),
      (∀ x ∈ b :: bodies, sep ∉ x) →
      splitOnChar sep (joinSep [sep, ' '] (b :: bodies)) =
        b :: bodies.map (fun x => ' ' :: x) := by
  intro bodies
  induction bodies with
  | nil =>
    intro b h
    simp [joinSep, splitOnChar_of_not_mem (h b (by simp))]
  | cons y rest ih =>
    intro b h
    have hb : sep ∉ b := h b (by simp)
    have hj : joinSep [sep, ' '] (b :: y :: rest) =
        b ++ sep :: (' ' :: joinSep [sep, ' '] (y :: rest)) := by
      simp [joinSep]
    have hrec := ih (' ' :: y) ?_
    · rw [hj, splitOnChar_append _ hb, space_joinSep, hrec]
      simp
    · intro x hx
      rcases List.mem_cons.mp hx with rfl | hx
      · intro hm
        rcases List.mem_cons.mp hm with hm | hm
        · exact hsep hm
        · exact h y (by simp) hm
      · exact h x (by simp [List.mem_cons, hx])

theorem trimChars_cons_space (l : List Char) : trimChars (' ' :: l) = trimChars l := by
  simp [trimChars, List.dropWhile_cons]

theorem trimChars_eq_self {l : List Char}
    (h₁ : ∀ c, l.head? = some c → c.isWhitespace = false)
    (h₂ : ∀ c, l.getLast? = some c → c.isWhitespace = false) :
    trimChars l = l := by
  have d1 : l.dropWhile Char.isWhitespace = l := by
    cases l with
    | nil => rfl
    | cons c t => simp [List.dropWhile_cons, h₁ c rfl]
  have d2 : l.reverse.dropWhile Char.isWhitespace = l.reverse := by
    cases hr : l.reverse with
    | nil => rfl
    | cons c t =>
      have hc : l.getLast? = some c := by
        rw [← List.head?_reverse, hr]
        rfl
      simp [List.dropWhile_cons, h₂ c hc]
  simp [trimChars, d1, d2]

theorem getLast?_append_right {l₁ l₂ : List Char} (h : l₂ ≠ []) :
    (l₁ ++ l₂).getLast? = l₂.getLast? := by
  rw [← List.head?_reverse, ← List.head?_reverse, List.reverse_append]
  cases hr : l₂.reverse with
  | nil => exact absurd (by simpa using hr) h
  | cons c t => rfl

theorem matchCubeAt_space (l : List Char) : matchCubeAt (' ' :: l) = none := by
  have hsp : (' ' : Char).isDigit = false := by decide
  simp [matchCubeAt, digitRun, List.takeWhile_cons, hsp]

theorem findCube_cons_space (l : List Char) : findCube (' ' :: l) = findCube l := by
  simp [findCube, matchCubeAt_space]

theorem specColors_cases {color : String} (hc : color ∈ specColors) :
    color = "red" ∨ color = "green" ∨ color = "blue" := by
  simpa [specColors] using hc

theorem matchCubeAt_pair (qty : List Char) (color : String)
    (hq : qty ≠ []) (hd : ∀ c ∈ qty, c.isDigit = true) (hc : color ∈ specColors) :
    matchCubeAt (qty ++ ' ' :: color.data) = some (qty, color) := by
  have hdr : digitRun (qty ++ ' ' :: color.data) = qty :=
    takeWhile_append_all _ _ _ hd
      (by intro c hcc; cases hcc; decide)
  have hemp : qty.isEmpty = false := by
    cases qty with
    | nil => exact absurd rfl hq
    | cons a b => rfl
  have hdrop : (qty ++ ' ' :: color.data).drop qty.length = ' ' :: color.data :=
    List.drop_left qty _
  rw [matchCubeAt]
  rw [show digitRun (qty ++ ' ' :: color.data) = qty from hdr]
  rw [hemp]
  simp only [Bool.false_eq_true, if_false, hdrop]
  rcases specColors_cases hc with h | h | h <;> subst h <;> rfl

theorem findCube_eq_of_match {s : List Char} {r : List Char × String}
    (hs : s ≠ []) (h : matchCubeAt s = some r) : findCube s = some r := by
  cases s with
  | nil => exact absurd rfl hs
  | cons c rest => simp [findCube, h]

theorem renderPair_ne_nil (p : SpecPair) : renderPair p ≠ [] := by
  simp [renderPair]

theorem findCube_pair (p : SpecPair) (hwf : SpecPairWF p) :
    findCube (renderPair p) = some (p.qty, p.color) :=
  findCube_eq_of_match (renderPair_ne_nil p)
    (matchCubeAt_pair p.qty p.color hwf.1 hwf.2.1 hwf.2.2)

theorem processCube_cons_space (st : Nat × Nat × Nat) (info : List Char) :
    processCube st (' ' :: info) = processCube st info := by
  simp [processCube, findCube_cons_space]

theorem processCube_pair (st : Nat × Nat × Nat) (p : SpecPair) (hwf : SpecPairWF p)
    (hb : natOfDigits p.qty < U32MOD) :
    processCube st (renderPair p) = .ok (updState st p) := by
  have hp : parseU32 p.qty = .ok (natOfDigits p.qty) := by rw [parseU32, if_pos hb]
  rw [processCube.eq_def, findCube_pair p hwf]
  rcases specColors_cases hwf.2.2 with h | h | h <;> simp [h, hp, updState]

theorem processCubes_spaced (ps : List SpecPair)
    (hwf : ∀ p ∈ ps, SpecPairWF p) (hb : ∀ p ∈ ps, natOfDigits p.qty < U32MOD) :
    ∀ st, processCubes st (ps.map (fun p => ' ' :: renderPair p)) =
      .ok (ps.foldl updState st) := by
  induction ps with
  | nil => intro st; rfl
  | cons p pt ih =>
    intro st
    have h1 : processCube st (' ' :: renderPair p) = .ok (updState st p) := by
      rw [processCube_cons_space, processCube_pair st p (hwf p (by simp)) (hb p (by simp))]
    simp only [List.map_cons, processCubes, h1]
    exact ih (fun x hx => hwf x (by simp [hx])) (fun x hx => hb x (by simp [hx]))
      (updState st p)

theorem sep_not_mem_renderPair {c : Char} (hc1 : c.isDigit = false) (hc2 : c ≠ ' ')
    (hc3 : ∀ col ∈ specColors, c ∉ col.data) {p : SpecPair} (hwf : SpecPairWF p) :
    c ∉ renderPair p := by
  intro hm
  rw [renderPair] at hm
  rcases List.mem_append.mp hm with hm | hm
  · exact absurd (hwf.2.1 c hm) (by simp [hc1])
  · rcases List.mem_cons.mp hm with rfl | hm
    · exact hc2 rfl
    · exact hc3 p.color hwf.2.2 hm

theorem mem_joinSep {c : Char} {sep : List Char} :
    ∀ {bodies : List (List Char)}, c ∈ joinSep sep bodies →
      c ∈ sep ∨ ∃ b ∈ bodies, c ∈ b := by
  intro bodies
  induction bodies with
  | nil => intro h; cases h
  | cons b rest ih =>
    cases rest with
    | nil =>
      intro h
      exact Or.inr ⟨b, by simp, h⟩
    | cons y rr =>
      intro h
      rcases List.mem_append.mp h with h | h
      · rcases List.mem_append.mp h with h | h
        · exact Or.inr ⟨b, by simp, h⟩
        · exact Or.inl h
      · rcases ih h with h | ⟨x, hx, hcx⟩
        · exact Or.inl h
        · exact Or.inr ⟨x, by simp [List.mem_cons, hx], hcx⟩

theorem sep_not_mem_renderGroup {c : Char} (hc1 : c.isDigit = false) (hc2 : c ≠ ' ')
    (hc3 : ∀ col ∈ specColors, c ∉ col.data) (hc4 : c ≠ ',')
    {grp : List SpecPair} (hwf : ∀ p ∈ grp, SpecPairWF p) :
    c ∉ renderGroup grp := by
  intro hm
  rcases mem_joinSep hm with hm | ⟨b, hb, hcb⟩
  · rcases List.mem_cons.mp hm with rfl | hm
    · exact hc4 rfl
    · rcases List.mem_cons.mp hm with rfl | hm
      · exact hc2 rfl
      · cases hm
  · rcases List.mem_map.mp hb with ⟨p, hp, rfl⟩
    exact sep_not_mem_renderPair hc1 hc2 hc3 (hwf p hp) hcb

theorem processCubes_group (grp : List SpecPair) (hne : grp ≠ [])
    (hwf : ∀ p ∈ grp, SpecPairWF p) (hb : ∀ p ∈ grp, natOfDigits p.qty < U32MOD)
    (st : Nat × Nat × Nat) :
    processCubes st (splitOnChar ',' (renderGroup grp)) = .ok (grp.foldl updState st) := by
  obtain ⟨p, pt, rfl⟩ : ∃ p pt, grp = p :: pt := by
    cases grp with
    | nil => exact absurd rfl hne
    | cons a b => exact ⟨a, b, rfl⟩
  have hsplit : splitOnChar ',' (renderGroup (p :: pt)) =
      renderPair p :: (pt.map renderPair).map (fun x => ' ' :: x) := by
    rw [renderGroup, List.map_cons]
    exact splitOnChar_joinSep ',' (by decide) (pt.map renderPair) (renderPair p)
      (by
        intro x hx
        rcases List.mem_cons.mp hx with rfl | hx
        · exact sep_not_mem_renderPair (by decide) (by decide)
            (by
              intro col hcol
              rcases specColors_cases hcol with rfl | rfl | rfl <;> decide)
            (hwf p (by simp))
        · rcases List.mem_map.mp hx with ⟨q, hq, rfl⟩
          exact sep_not_mem_renderPair (by decide) (by decide)
            (by
              intro col hcol
              rcases specColors_cases hcol with rfl | rfl | rfl <;> decide)
            (hwf q (by simp [List.mem_cons, hq])))
  rw [hsplit, List.map_map]
  simp only [processCubes, processCube_pair st p (hwf p (by simp)) (hb p (by simp))]
  exact processCubes_spaced pt (fun x hx => hwf x (by simp [List.mem_cons, hx]))
    (fun x hx => hb x (by simp [List.mem_cons, hx])) (updState st p)

theorem joinSep_ne_nil {sep : List Char} {b : List Char} {bodies : List (List Char)}
    (hb : b ≠ []) : joinSep sep (b :: bodies) ≠ [] := by
  cases bodies with
  | nil => exact hb
  | cons y rr => simp [joinSep, hb]

theorem joinSep_head? {sep : List Char} {b : List Char} {bodies : List (List Char)}
    (hb : b ≠ []) : (joinSep sep (b :: bodies)).head? = b.head? := by
  cases bodies with
  | nil => rfl
  | cons y rr =>
    cases b with
    | nil => exact absurd rfl hb
    | cons c t => rfl

theorem renderGroup_head_digit {grp : List SpecPair} (hne : grp ≠ [])
    (hwf : ∀ p ∈ grp, SpecPairWF p) :
    ∀ c, (renderGroup grp).head? = some c → c.isDigit = true := by
  obtain ⟨p, pt, rfl⟩ : ∃ p pt, grp = p :: pt := by
    cases grp with
    | nil => exact absurd rfl hne
    | cons a b => exact ⟨a, b, rfl⟩
  intro c hc
  rw [renderGroup, List.map_cons, joinSep_head? (renderPair_ne_nil p)] at hc
  obtain ⟨q, qt, hq⟩ : ∃ q qt, p.qty = q :: qt := by
    cases hqq : p.qty with
    | nil => exact absurd hqq (hwf p (by simp)).1
    | cons a b => exact ⟨a, b, rfl⟩
  rw [renderPair, hq] at hc
  cases hc
  exact (hwf p (by simp)).2.1 c (by simp [hq])

theorem renderPair_getLast_not_white {p : SpecPair} (hwf : SpecPairWF p) :
    ∀ c, (renderPair p).getLast? = some c → c.isWhitespace = false := by
  intro c hc
  rw [renderPair, getLast?_append_right (by simp)] at hc
  rcases specColors_cases hwf.2.2 with h | h | h <;> rw [h] at hc <;>
    (cases hc; decide)

theorem renderGroup_getLast_not_white :
    ∀ {grp : List SpecPair}, grp ≠ [] → (∀ p ∈ grp, SpecPairWF p) →
      ∀ c, (renderGroup grp).getLast? = some c → c.isWhitespace = false := by
  intro grp
  induction grp with
  | nil => intro hne; exact absurd rfl hne
  | cons p pt ih =>
    intro _ hwf c hc
    cases pt with
    | nil => exact renderPair_getLast_not_white (hwf p (by simp)) c hc
    | cons q qt =>
      have hne2 : renderGroup (q :: qt) ≠ [] := by
        rw [renderGroup, List.map_cons]
        exact joinSep_ne_nil (renderPair_ne_nil q)
      have hrw : renderGroup (p :: q :: qt) =
          renderPair p ++ [',', ' '] ++ renderGroup (q :: qt) := by
        simp [renderGroup, joinSep]
      rw [hrw, List.append_assoc, getLast?_append_right (by simp),
        getLast?_append_right hne2] at hc
      exact ih (by simp) (fun x hx => hwf x (by simp [List.mem_cons, hx])) c hc

theorem renderGroup_trim {grp : List SpecPair} (hne : grp ≠ [])
    (hwf : ∀ p ∈ grp, SpecPairWF p) :
    trimChars (renderGroup grp) = renderGroup grp :=
  trimChars_eq_self
    (fun c hc => not_whitespace_of_isDigit (renderGroup_head_digit hne hwf c hc))
    (renderGroup_getLast_not_white hne hwf)

theorem colorMaxList_cons (p : SpecPair) (pt : List SpecPair) (col : String) :
    colorMaxList (p :: pt) col =
      if p.color = col then max (natOfDigits p.qty) (colorMaxList pt col)
      else colorMaxList pt col := by
  by_cases h : p.color = col <;> simp [colorMaxList, List.filter_cons, h]

theorem foldl_updState (ps : List SpecPair) (hcol : ∀ p ∈ ps, p.color ∈ specColors) :
    ∀ st : Nat × Nat × Nat,
      ps.foldl updState st =
        (max st.1 (colorMaxList ps ("red")), max st.2.1 (colorMaxList ps ("green")),
          max st.2.2 (colorMaxList ps ("blue"))) := by
  induction ps with
  | nil =>
    intro st
    obtain ⟨r, g, b⟩ := st
    simp [colorMaxList]
  | cons p pt ih =>
    intro st
    rw [List.foldl_cons,
      ih (fun x hx => hcol x (by simp [List.mem_cons, hx]))]
    rcases specColors_cases (hcol p (by simp)) with h | h | h <;>
      simp [colorMaxList_cons, h, updState, Nat.max_assoc]

theorem processGroups_spaced (grps : List (List SpecPair))
    (hwf : ∀ grp ∈ grps, grp ≠ [] ∧ ∀ p ∈ grp, SpecPairWF p)
    (hb : ∀ grp ∈ grps, ∀ p ∈ grp, natOfDigits p.qty < U32MOD) :
    ∀ st, processGroups st (grps.map (fun grp => ' ' :: renderGroup grp)) =
      .ok (grps.flatten.foldl updState st) := by
  induction grps with
  | nil => intro st; rfl
  | cons grp grest ih =>
    intro st
    have htrim : trimChars (' ' :: renderGroup grp) = renderGroup grp := by
      rw [trimChars_cons_space]
      exact renderGroup_trim (hwf grp (by simp)).1 (hwf grp (by simp)).2
    simp only [List.map_cons, processGroups, htrim,
      processCubes_group grp (hwf grp (by simp)).1 (hwf grp (by simp)).2
        (hb grp (by simp)) st]
    rw [ih (fun x hx => hwf x (by simp [List.mem_cons, hx]))
      (fun x hx => hb x (by simp [List.mem_cons, hx])) (grp.foldl updState st)]
    rw [List.flatten_cons, List.foldl_append]

theorem findId_eq_of_match {s : List Char} {r : List Char × List Char}
    (hs : s ≠ []) (h : matchIdAt s = some r) : findId s = some r := by
  cases s with
  | nil => exact absurd rfl hs
  | cons c rest => simp [findId, h]

theorem newline_not_mem_body {grps : List (List SpecPair)}
    (hwf : ∀ grp ∈ grps, ∀ p ∈ grp, SpecPairWF p) :
    ∀ c ∈ joinSep [';', ' '] (grps.map renderGroup), (c != '\n') = true := by
  intro c hcm
  rcases mem_joinSep hcm with hm | ⟨b, hbm, hcb⟩
  · rcases List.mem_cons.mp hm with rfl | hm
    · decide
    · rcases List.mem_cons.mp hm with rfl | hm
      · decide
      · cases hm
  · rcases List.mem_map.mp hbm with ⟨grp, hgrp, rfl⟩
    rcases mem_joinSep hcb with hm | ⟨x, hx, hcx⟩
    · rcases List.mem_cons.mp hm with rfl | hm
      · decide
      · rcases List.mem_cons.mp hm with rfl | hm
        · decide
        · cases hm
    · rcases List.mem_map.mp hx with ⟨p, hp, rfl⟩
      rw [renderPair] at hcx
      simp only [bne_iff_ne, ne_eq]
      rcases List.mem_append.mp hcx with hm | hm
      · exact ne_of_isDigit_of_not ((hwf grp hgrp p hp).2.1 c hm) (by decide)
      · rcases List.mem_cons.mp hm with rfl | hm
        · decide
        · have hall : ∀ x ∈ p.color.data, ¬x = '\n' := by
            rcases specColors_cases (hwf grp hgrp p hp).2.2 with h | h | h <;>
              rw [h] <;> decide
          exact hall c hm

theorem matchIdAt_render (g : SpecGame) (hwf : SpecGameWF g) :
    matchIdAt (renderGame g) =
      some (g.idStr, ' ' :: joinSep [';', ' '] (g.groups.map renderGroup)) := by
  obtain ⟨hid, hdig, hgne, hgwf⟩ := hwf
  have hpre : ("Game ").data.isPrefixOf (renderGame g) = true := by
    rw [renderGame, List.append_assoc]
    exact isPrefixOf_append_self _ _
  have h5 : (("Game ").data).length = 5 := rfl
  have hdrop5 : (renderGame g).drop 5 =
      g.idStr ++ ':' :: ' ' :: joinSep [';', ' '] (g.groups.map renderGroup) := by
    rw [renderGame, List.append_assoc, ← h5, List.drop_left]
  have hdr : digitRun (g.idStr ++ ':' :: ' ' :: joinSep [';', ' '] (g.groups.map renderGroup)) =
      g.idStr :=
    takeWhile_append_all _ _ _ hdig (by intro c hcc; cases hcc; decide)
  have hemp : g.idStr.isEmpty = false := by
    cases hi : g.idStr with
    | nil => exact absurd hi hid
    | cons a b => rfl
  have hdropid : (g.idStr ++ ':' :: ' ' :: joinSep [';', ' '] (g.groups.map renderGroup)).drop
      g.idStr.length = ':' :: ' ' :: joinSep [';', ' '] (g.groups.map renderGroup) :=
    List.drop_left _ _
  have htake : (' ' :: joinSep [';', ' '] (g.groups.map renderGroup)).takeWhile
      (fun c => c != '\n') = ' ' :: joinSep [';', ' '] (g.groups.map renderGroup) := by
    apply takeWhile_all
    intro c hc
    rcases List.mem_cons.mp hc with rfl | hc
    · decide
    · exact newline_not_mem_body (fun grp hg => (hgwf grp hg).2) c hc
  simp only [matchIdAt, hpre, if_true, hdrop5, hdr, hemp, hdropid, htake,
    Bool.false_eq_true, if_false]

theorem findId_render (g : SpecGame) (hwf : SpecGameWF g) :
    findId (renderGame g) =
      some (g.idStr, ' ' :: joinSep [';', ' '] (g.groups.map renderGroup)) := by
  apply findId_eq_of_match
  · rw [renderGame]
    rw [show ("Game ").data = ['G', 'a', 'm', 'e', ' '] from rfl]
    simp
  · exact matchIdAt_render g hwf

theorem from_str_eq {s : String} {idStr content : List Char} {idv r gr b : Nat}
    (h1 : findId s.data = some (idStr, content))
    (h2 : parseU32 idStr = .ok idv)
    (h3 : processGroups (0, 0, 0) (splitOnChar ';' content) = .ok (r, gr, b)) :
    GameData.from_str s = .ok ⟨idv, r, gr, b⟩ := by
  simp only [GameData.from_str, h1, h2, h3]

theorem semicolon_not_mem_renderGroup {grp : List SpecPair}
    (hwf : ∀ p ∈ grp, SpecPairWF p) : ';' ∉ renderGroup grp :=
  sep_not_mem_renderGroup (by decide) (by decide)
    (by
      intro col hcol
      rcases specColors_cases hcol with rfl | rfl | rfl <;> decide)
    (by decide) hwf

theorem splitOnChar_content (g : SpecGame) (hwf : SpecGameWF g) :
    splitOnChar ';' (' ' :: joinSep [';', ' '] (g.groups.map renderGroup)) =
      g.groups.map (fun grp => ' ' :: renderGroup grp) := by
  obtain ⟨hid, hdig, hgne, hgwf⟩ := hwf
  obtain ⟨grp0, grest, hgeq⟩ : ∃ a b, g.groups = a :: b := by
    cases hgg : g.groups with
    | nil => exact absurd hgg hgne
    | cons a b => exact ⟨a, b, rfl⟩
  rw [hgeq, List.map_cons, space_joinSep,
    splitOnChar_joinSep ';' (by decide) (grest.map renderGroup) (' ' :: renderGroup grp0)
      (by
        intro x hx
        rcases List.mem_cons.mp hx with rfl | hx
        · intro hm
          rcases List.mem_cons.mp hm with hm | hm
          · exact absurd hm (by decide)
          · exact semicolon_not_mem_renderGroup
              ((hgwf grp0 (by simp [hgeq])).2) hm
        · rcases List.mem_map.mp hx with ⟨grp, hg, rfl⟩
          exact semicolon_not_mem_renderGroup
            ((hgwf grp (by simp [hgeq, List.mem_cons, hg])).2)),
    List.map_map, List.map_cons]
  rfl

/-- Claim C2 (amended): given a line of the grammar
`"Game <id>: <group>; <group>; ..."` (each group a comma-separated list
of quantity-color pairs with colors from red, green, blue) in which the
id and every quantity have value below 2^32, `GameData.from_str` returns
the record holding the id and the per-color maximum quantity over all
pairs of the line, a color absent from the line yielding 0. -/
theorem from_str_grammar (g : SpecGame) (hwf : SpecGameWF g) (hb : SpecGameBounded g) :
    GameData.from_str (String.mk (renderGame g)) =
      .ok ⟨natOfDigits g.idStr, specColorMax g ("red"), specColorMax g ("green"),
        specColorMax g ("blue")⟩ := by
  have hfind := findId_render g hwf
  have hid32 : parseU32 g.idStr = .ok (natOfDigits g.idStr) := by
    rw [parseU32, if_pos hb.1]
  have hcols : ∀ p ∈ g.groups.flatten, p.color ∈ specColors := by
    intro p hp
    rcases List.mem_flatten.mp hp with ⟨grp, hg, hpg⟩
    exact ((hwf.2.2.2 grp hg).2 p hpg).2.2
  have h3 : processGroups (0, 0, 0)
      (splitOnChar ';' (' ' :: joinSep [';', ' '] (g.groups.map renderGroup))) =
      .ok (specColorMax g ("red"), specColorMax g ("green"), specColorMax g ("blue")) := by
    rw [splitOnChar_content g hwf,
      processGroups_spaced g.groups hwf.2.2.2 hb.2 (0, 0, 0),
      foldl_updState g.groups.flatten hcols (0, 0, 0)]
    simp [specColorMax]
  exact from_str_eq (by rw [show (String.mk (renderGame g)).data = renderGame g from rfl]; exact hfind)
    hid32 h3

theorem tokenAt_nil : tokenAt [] = none := rfl

theorem tokenAt_mem_vocab {s : List Char} {t : String} (h : tokenAt s = some t) :
    t ∈ digitVocab :=
  List.mem_of_find?_eq_some h

theorem mem_scanTokensAux_vocab :
    ∀ (fuel : Nat) (s : List Char) (t : String),
      t ∈ scanTokensAux fuel s → t ∈ digitVocab := by
  intro fuel
  induction fuel with
  | zero => intro s t h; cases h
  | succ f ih =>
    intro s t h
    cases s with
    | nil => cases h
    | cons c rest =>
      cases hta : tokenAt (c :: rest) with
      | none =>
        rw [scanTokensAux, hta] at h
        exact ih _ _ h
      | some t0 =>
        rw [scanTokensAux, hta] at h
        rcases List.mem_cons.mp h with rfl | h
        · exact tokenAt_mem_vocab hta
        · exact ih _ _ h

theorem mem_scanTokens_vocab {s : List Char} {t : String} (h : t ∈ scanTokens s) :
    t ∈ digitVocab :=
  mem_scanTokensAux_vocab _ _ _ h

/-- Boolean check that a token parses to a digit value in 1..9. -/
def parsesSmall (t : String) : Bool :=
  match parse_calibration_digit t with
  | .ok v => decide (1 ≤ v ∧ v ≤ 9)
  | .error _ => false

theorem vocab_parsesSmall : ∀ t ∈ digitVocab, parsesSmall t = true := by decide

theorem parsesSmall_spec {t : String} (h : parsesSmall t = true) :
    ∃ v, parse_calibration_digit t = .ok v ∧ 1 ≤ v ∧ v ≤ 9 := by
  unfold parsesSmall at h
  cases hp : parse_calibration_digit t with
  | ok v =>
    rw [hp] at h
    exact ⟨v, rfl, of_decide_eq_true h⟩
  | error e => rw [hp] at h; cases h

theorem scanTokensAux_nil_iff :
    ∀ (fuel : Nat) (s : List Char), s.length ≤ fuel →
      (scanTokensAux fuel s = [] ↔ ∀ i, tokenAt (s.drop i) = none) := by
  intro fuel
  induction fuel with
  | zero =>
    intro s hs
    have hsnil : s = [] := List.eq_nil_of_length_eq_zero (Nat.le_zero.mp hs)
    subst hsnil
    simp [scanTokensAux, tokenAt_nil]
  | succ f ih =>
    intro s hs
    cases s with
    | nil => simp [scanTokensAux, tokenAt_nil]
    | cons c rest =>
      cases hta : tokenAt (c :: rest) with
      | some t =>
        rw [scanTokensAux, hta]
        constructor
        · intro h; cases h
        · intro h
          have h0 := h 0
          rw [List.drop_zero, hta] at h0
          cases h0
      | none =>
        rw [scanTokensAux, hta,
          ih rest (Nat.le_of_succ_le_succ (by simpa using hs))]
        constructor
        · intro h i
          cases i with
          | zero => rw [List.drop_zero]; exact hta
          | succ j => exact h j
        · intro h j
          exact h (j + 1)

theorem mem_of_getLast?_eq_some {a : String} :
    ∀ {l : List String}, l.getLast? = some a → a ∈ l := by
  intro l
  induction l with
  | nil => intro h; cases h
  | cons x xt ih =>
    intro h
    rw [List.getLast?_cons] at h
    cases hx : xt.getLast? with
    | none =>
      rw [hx] at h
      simp only [Option.getD_none, Option.some.injEq] at h
      simp [h.symm]
    | some y =>
      rw [hx] at h
      simp only [Option.getD_some, Option.some.injEq] at h
      subst h
      exact List.mem_cons_of_mem _ (ih hx)

theorem sumResults_error {E : Type} [Subsingleton E] (e : E) :
    ∀ (xs : List (Except E Nat)) (acc : Nat), (∃ x ∈ xs, x = .error e) →
      sumResults acc xs = .error e := by
  intro xs
  induction xs with
  | nil =>
    intro acc h
    obtain ⟨x, hx, -⟩ := h
    cases hx
  | cons x xt ih =>
    intro acc h
    obtain ⟨y, hy, hye⟩ := h
    cases x with
    | error e2 => rw [show sumResults acc (.error e2 :: xt) = .error e2 from rfl,
        Subsingleton.elim e2 e]
    | ok v =>
      rcases List.mem_cons.mp hy with rfl | hy
      · cases hye
      · exact ih (u32add acc v) ⟨y, hy, hye⟩

theorem sumResults_ok {E : Type} :
    ∀ (xs : List (Except E Nat)), (∀ x ∈ xs, ∃ v, x = .ok v) →
      ∀ acc, acc < U32MOD →
        sumResults acc xs = .ok ((acc + (xs.map okVal).sum) % U32MOD) := by
  intro xs
  induction xs with
  | nil =>
    intro _ acc hacc
    simp [sumResults, Nat.mod_eq_of_lt hacc]
  | cons x xt ih =>
    intro h acc hacc
    obtain ⟨v, rfl⟩ := h x (by simp)
    simp only [sumResults, okVal, List.map_cons, List.sum_cons]
    rw [ih (fun y hy => h y (by simp [List.mem_cons, hy])) (u32add acc v)
      (Nat.mod_lt _ (by norm_num [U32MOD]))]
    congr 1
    rw [u32add, Nat.mod_add_mod, Nat.add_assoc]

theorem sumResults_map_ok {E : Type} (l : List Nat) :
    sumResults (E := E) 0 (l.map Except.ok) = .ok (l.sum % U32MOD) := by
  have h := sumResults_ok (E := E) (l.map Except.ok)
    (by
      intro x hx
      rcases List.mem_map.mp hx with ⟨v, hv, rfl⟩
      exact ⟨v, rfl⟩)
    0 (by norm_num [U32MOD])
  have hmap : (l.map (Except.ok : Nat → Except E Nat)).map okVal = l := by
    rw [List.map_map, show okVal ∘ (Except.ok : Nat → Except E Nat) = id from funext fun v => rfl,
      List.map_id]
  rw [hmap] at h
  simpa using h

theorem collectGames_error (e : ParseGameDataError) :
    ∀ (xs : List (Except ParseGameDataError GameData)), (∃ x ∈ xs, x = .error e) →
      collectGames xs = .error e := by
  intro xs
  induction xs with
  | nil =>
    intro h
    obtain ⟨x, hx, -⟩ := h
    cases hx
  | cons x xt ih =>
    intro h
    obtain ⟨y, hy, hye⟩ := h
    cases x with
    | error e2 => rw [show collectGames (.error e2 :: xt) = .error e2 from rfl,
        Subsingleton.elim e2 e]
    | ok v =>
      rcases List.mem_cons.mp hy with rfl | hy
      · cases hye
      · rw [show collectGames (.ok v :: xt) =
            (match collectGames xt with
              | .error e => .error e
              | .ok vs => .ok (v :: vs)) from rfl,
          ih ⟨y, hy, hye⟩]

theorem collectGames_ok :
    ∀ (xs : List (Except ParseGameDataError GameData)), (∀ x ∈ xs, ∃ v, x = .ok v) →
      ∃ gs, collectGames xs = .ok gs := by
  intro xs
  induction xs with
  | nil => intro _; exact ⟨[], rfl⟩
  | cons x xt ih =>
    intro h
    obtain ⟨v, rfl⟩ := h x (by simp)
    obtain ⟨gs, hgs⟩ := ih (fun y hy => h y (by simp [List.mem_cons, hy]))
    refine ⟨v :: gs, ?_⟩
    rw [show collectGames (.ok v :: xt) =
        (match collectGames xt with
          | .error e => .error e
          | .ok vs => .ok (v :: vs)) from rfl,
      hgs]

theorem calibration_error_of_empty_scan {line : String}
    (h : scanTokens line.data = []) : calibration line = .error ⟨⟩ := by
  simp [calibration, h]

theorem calibration_eval (line : String) (t : String) (ts : List String)
    (hscan : scanTokens line.data = t :: ts) :
    ∃ f l last, (t :: ts).getLast? = some last ∧
      parse_calibration_digit t = .ok f ∧ parse_calibration_digit last = .ok l ∧
      1 ≤ f ∧ f ≤ 9 ∧ 1 ≤ l ∧ l ≤ 9 ∧ calibration line = .ok (10 * f + l) := by
  have htv : t ∈ digitVocab :=
    mem_scanTokens_vocab (s := line.data) (by rw [hscan]; simp)
  obtain ⟨f, hf, hf1, hf9⟩ := parsesSmall_spec (vocab_parsesSmall t htv)
  obtain ⟨last, hlast⟩ : ∃ last, (t :: ts).getLast? = some last :=
    ⟨ts.getLast?.getD t, List.getLast?_cons⟩
  have hlmem : last ∈ t :: ts := mem_of_getLast?_eq_some hlast
  obtain ⟨l, hl, hl1, hl9⟩ := parsesSmall_spec
    (vocab_parsesSmall last (mem_scanTokens_vocab (s := line.data) (hscan ▸ hlmem)))
  have hm : (2 : Nat) ^ 32 = 4294967296 := by norm_num
  have harith : u32add (u32mul f 10) l = 10 * f + l := by
    have h1 : f * 10 % 4294967296 = f * 10 := Nat.mod_eq_of_lt (by omega)
    have h2 : (f * 10 + l) % 4294967296 = f * 10 + l := Nat.mod_eq_of_lt (by omega)
    rw [u32mul, u32add, U32MOD, hm, h1, h2]
    omega
  have hcal : calibration line = .ok (u32add (u32mul f 10) l) := by
    simp only [calibration, hscan, List.head?_cons, hf, hlast, hl]
  exact ⟨f, l, last, hlast, hf, hl, hf1, hf9, hl1, hl9, by rw [hcal, harith]⟩

theorem calibration_sum_error_of {lines : List String}
    (h : ∃ l ∈ lines.filter (fun x => !x.isEmpty), calibration l = .error ⟨⟩) :
    calibration_sum lines = .error ⟨⟩ := by
  obtain ⟨l, hl, he⟩ := h
  exact sumResults_error ⟨⟩ _ 0 ⟨calibration l, List.mem_map_of_mem _ hl, he⟩

theorem calibration_sum_ok_of {lines : List String}
    (h : ∀ l ∈ lines.filter (fun x => !x.isEmpty), ∃ v, calibration l = .ok v) :
    calibration_sum lines =
      .ok ((((lines.filter (fun x => !x.isEmpty)).map
        (fun l => okVal (calibration l))).sum) % U32MOD) := by
  have hs := sumResults_ok ((lines.filter (fun x => !x.isEmpty)).map calibration)
    (by
      intro x hx
      rcases List.mem_map.mp hx with ⟨l, hl, rfl⟩
      exact h l hl)
    0 (by norm_num [U32MOD])
  rw [show calibration_sum lines =
      sumResults 0 ((lines.filter (fun x => !x.isEmpty)).map calibration) from rfl, hs,
    Nat.zero_add, List.map_map]
  rfl

theorem game_sums_error_of {lines : List String} (bag : Bag)
    (h : ∃ l ∈ lines.filter (fun x => !x.isEmpty), GameData.from_str l = .error ⟨⟩) :
    game_id_sum lines bag = .error ⟨⟩ ∧ power_sum lines = .error ⟨⟩ := by
  obtain ⟨l, hl, he⟩ := h
  have hcol : collectGames ((lines.filter (fun x => !x.isEmpty)).map GameData.from_str) =
      .error ⟨⟩ :=
    collectGames_error ⟨⟩ _ ⟨GameData.from_str l, List.mem_map_of_mem _ hl, he⟩
  constructor
  · simp only [game_id_sum, hcol]
  · simp only [power_sum, hcol]

theorem game_id_sum_eq {lines : List String} (bag : Bag) {gs : List GameData}
    (h : collectGames ((lines.filter (fun x => !x.isEmpty)).map GameData.from_str) = .ok gs) :
    game_id_sum lines bag =
      .ok ((((gs.filter (fun x => validate x bag)).map GameData.id).sum) % U32MOD) := by
  simp only [game_id_sum, h]
  rw [show (gs.filter fun x => validate x bag).map (fun x => Except.ok x.id) =
      ((gs.filter fun x => validate x bag).map GameData.id).map Except.ok from by
    rw [List.map_map]; rfl]
  exact sumResults_map_ok _

theorem power_sum_eq {lines : List String} {gs : List GameData}
    (h : collectGames ((lines.filter (fun x => !x.isEmpty)).map GameData.from_str) = .ok gs) :
    power_sum lines = .ok (((gs.map cube_power).sum) % U32MOD) := by
  simp only [power_sum, h]
  rw [show gs.map (fun x => Except.ok (cube_power x)) =
      (gs.map cube_power).map Except.ok from by rw [List.map_map]; rfl]
  exact sumResults_map_ok _

/-- Claim C1, counterexample: scanning the line "eightwothree" does not
yield the token sequence "eight","two","three".  The source uses
`find_iter`, whose matches are non-overlapping, so the occurrence of
"two" that overlaps the matched "eight" is never reported. -/
theorem scan_overlap_cex :
    scanTokens (("eightwothree").data) ≠ ["eight", "two", "three"] := by decide

/-- Claim C1 (amended): the calibration pattern scan finds the
non-overlapping leftmost occurrences of the vocabulary tokens in order
of character position, resuming immediately after the end of each match,
so a spelled-out name overlapping a previously matched token is skipped:
scanning "eightwothree" yields exactly "eight","three" (the calibration
value is nevertheless 83, because only first and last matter). -/
theorem scan_overlap :
    scanTokens (("eightwothree").data) = ["eight", "three"] ∧
      calibration ("eightwothree") = .ok 83 := by
  exact ⟨by decide, rfl⟩

/-- Claim C4: for every line on which the digit vocabulary matches at
least once, calibration returns first*10 + last where first and last are
the digit values of the first and last match by start position (a sole
match serves as both), an integer in [11,99]; for every line with zero
vocabulary matches it fails with ParseCalibrationError. -/
theorem calibration_spec (line : String) :
    ((∀ i, tokenAt (line.data.drop i) = none) → calibration line = .error ⟨⟩) ∧
    (∀ t ts, scanTokens line.data = t :: ts →
      ∃ f l last, (t :: ts).getLast? = some last ∧
        parse_calibration_digit t = .ok f ∧ parse_calibration_digit last = .ok l ∧
        calibration line = .ok (10 * f + l) ∧ 11 ≤ 10 * f + l ∧ 10 * f + l ≤ 99) := by
  constructor
  · intro h
    exact calibration_error_of_empty_scan
      ((scanTokensAux_nil_iff line.data.length line.data le_rfl).mpr h)
  · intro t ts hscan
    obtain ⟨f, l, last, hlast, hf, hl, hf1, hf9, hl1, hl9, hcal⟩ :=
      calibration_eval line t ts hscan
    exact ⟨f, l, last, hlast, hf, hl, hcal, by omega, by omega⟩

/-- Claim C4 witness: the contract applied at the line "1abc2". -/
theorem calibration_spec_witness : calibration ("1abc2") = .ok 12 := by
  obtain ⟨-, h⟩ := calibration_spec ("1abc2")
  obtain ⟨f, l, last, hlast, hf, hl, hc, -, -⟩ := h ("1") [("2")] (by decide)
  have h1 : f = 1 := by
    have hh := hf.symm.trans (show parse_calibration_digit ("1") = .ok 1 from rfl)
    injection hh with hv
  have h2 : last = "2" := by
    have hh := (show ((("1" : String)) :: [("2" : String)]).getLast? = some ("2") from rfl).symm.trans hlast
    injection hh with hv
    exact hv.symm
  subst h2
  have h3 : l = 2 := by
    have hh := hl.symm.trans (show parse_calibration_digit ("2") = .ok 2 from rfl)
    injection hh with hv
  rw [hc, h1, h3]

/-- Claim C6: calibration_sum over the seven spelled-digit sample lines
returns Ok 281. -/
theorem calibration_sum_sample :
    calibration_sum [("two1nine"), ("eightwothree"), ("abcone2threexyz"),
      ("xtwone3four"), ("4nineeightseven2"), ("zoneight234"), ("7pqrstsixteen")] =
      .ok 281 := by rfl

/-- Claim C3: all three aggregators are fail-fast.  If some non-empty
line fails to parse, the aggregator returns the parse error and no
partial sum; otherwise it returns the full (u32) sum. -/
theorem aggregators_fail_fast (lines : List String) (bag : Bag) :
    ((∃ l ∈ lines.filter (fun x => !x.isEmpty), calibration l = .error ⟨⟩) →
      calibration_sum lines = .error ⟨⟩) ∧
    ((∀ l ∈ lines.filter (fun x => !x.isEmpty), ∃ v, calibration l = .ok v) →
      calibration_sum lines =
        .ok ((((lines.filter (fun x => !x.isEmpty)).map
          (fun l => okVal (calibration l))).sum) % U32MOD)) ∧
    ((∃ l ∈ lines.filter (fun x => !x.isEmpty), GameData.from_str l = .error ⟨⟩) →
      game_id_sum lines bag = .error ⟨⟩ ∧ power_sum lines = .error ⟨⟩) ∧
    ((∀ l ∈ lines.filter (fun x => !x.isEmpty), ∃ g, GameData.from_str l = .ok g) →
      ∃ gs, collectGames ((lines.filter (fun x => !x.isEmpty)).map GameData.from_str) =
          .ok gs ∧
        game_id_sum lines bag =
          .ok ((((gs.filter (fun x => validate x bag)).map GameData.id).sum) % U32MOD) ∧
        power_sum lines = .ok (((gs.map cube_power).sum) % U32MOD)) := by
  refine ⟨calibration_sum_error_of, calibration_sum_ok_of, game_sums_error_of bag, ?_⟩
  intro h
  obtain ⟨gs, hgs⟩ := collectGames_ok _
    (by
      intro x hx
      rcases List.mem_map.mp hx with ⟨l, hl, rfl⟩
      exact h l hl)
  exact ⟨gs, hgs, game_id_sum_eq bag hgs, power_sum_eq hgs⟩

/-- Claim C3 witness: fail-fast observed on concrete failing inputs. -/
theorem aggregators_fail_fast_witness :
    calibration_sum [("abc")] = .error ⟨⟩ ∧
      game_id_sum [("oops")] ⟨12, 13, 14⟩ = .error ⟨⟩ ∧
      power_sum [("oops")] = .error ⟨⟩ := by
  refine ⟨?_, ?_, ?_⟩
  · exact (aggregators_fail_fast [("abc")] ⟨12, 13, 14⟩).1
      ⟨("abc"), by decide, by rfl⟩
  · exact ((aggregators_fail_fast [("oops")] ⟨12, 13, 14⟩).2.2.1
      ⟨("oops"), by decide, by rfl⟩).1
  · exact ((aggregators_fail_fast [("oops")] ⟨12, 13, 14⟩).2.2.1
      ⟨("oops"), by decide, by rfl⟩).2

/-- Claim C5: both regexes of GameData::from_str are unanchored, so a
line that does not conform to the grammar (stray text before "Game",
and the pair "3 blueberries" instead of a quantity-color pair) is
nevertheless accepted with the embedded captures; no well-formed
rendering of the grammar produces this line. -/
theorem from_str_unanchored :
    GameData.from_str ("xGame 1: 3 blueberries") = .ok ⟨1, 0, 0, 3⟩ ∧
      ∀ g : SpecGame, SpecGameWF g → renderGame g ≠ ("xGame 1: 3 blueberries").data := by
  constructor
  · rfl
  · intro g _ hr
    have hhead : (renderGame g).head? = some 'G' := by
      rw [renderGame, List.append_assoc,
        show ("Game ").data = ['G', 'a', 'm', 'e', ' '] from rfl]
      rfl
    rw [hr, show ((("xGame 1: 3 blueberries").data).head?) = some 'x' from rfl] at hhead
    injection hhead with hh
    exact absurd hh (by decide)

/-- Claim C5 witness: the non-conformance half applied at a concrete
well-formed grammar line. -/
theorem from_str_unanchored_witness :
    renderGame ⟨['1'], [[⟨['3'], "blue"⟩]]⟩ ≠ ("xGame 1: 3 blueberries").data :=
  from_str_unanchored.2 ⟨['1'], [[⟨['3'], "blue"⟩]]⟩ (by decide)

/-- Claim C2, counterexample: the line "Game 1: 4294967296 red" conforms
to the grammar (witnessed by the well-formed structured line rendering
to it), yet from_str returns the parse error because the quantity does
not fit in a u32, instead of returning the record {id 1, red
4294967296}. -/
theorem from_str_grammar_cex :
    SpecGameWF ⟨['1'], [[⟨("4294967296").data, "red"⟩]]⟩ ∧
      String.mk (renderGame ⟨['1'], [[⟨("4294967296").data, "red"⟩]]⟩) =
        ("Game 1: 4294967296 red") ∧
      GameData.from_str ("Game 1: 4294967296 red") = .error ⟨⟩ :=
  ⟨by decide, by decide, rfl⟩

/-- Claim C2 witness: the grammar theorem applied at the canonical first
sample line, yielding the record {id 1, red 4, green 2, blue 6}. -/
theorem from_str_grammar_witness :
    GameData.from_str (String.mk (renderGame
      ⟨['1'], [[⟨['3'], "blue"⟩, ⟨['4'], "red"⟩],
        [⟨['1'], "red"⟩, ⟨['2'], "green"⟩, ⟨['6'], "blue"⟩], [⟨['2'], "green"⟩]]⟩)) =
      .ok ⟨1, 4, 2, 6⟩ := by
  have h := from_str_grammar
    ⟨['1'], [[⟨['3'], "blue"⟩, ⟨['4'], "red"⟩],
      [⟨['1'], "red"⟩, ⟨['2'], "green"⟩, ⟨['6'], "blue"⟩], [⟨['2'], "green"⟩]]⟩
    (by decide) (by decide)
  rw [h]
  rfl

/-- Claim C7: for parseable lines, game_id_sum returns the (u32) sum of
the identifiers of exactly those records that pass the validator against
the bag; the empty sequence gives Ok 0, not an error; with bag
{12,13,14} the canonical 5-game sample gives Ok 8. -/
theorem game_id_sum_spec :
    (∀ (lines : List String) (bag : Bag) (gs : List GameData),
      collectGames ((lines.filter (fun x => !x.isEmpty)).map GameData.from_str) = .ok gs →
      game_id_sum lines bag =
        .ok ((((gs.filter (fun x => validate x bag)).map GameData.id).sum) % U32MOD)) ∧
    (∀ bag : Bag, game_id_sum [] bag = .ok 0) ∧
    game_id_sum
      [("Game 1: 3 blue, 4 red; 1 red, 2 green, 6 blue; 2 green"),
       ("Game 2: 1 blue, 2 green; 3 green, 4 blue, 1 red; 1 green, 1 blue"),
       ("Game 3: 8 green, 6 blue, 20 red; 5 blue, 4 red, 13 green; 5 green, 1 red"),
       ("Game 4: 1 green, 3 red, 6 blue; 3 green, 6 red; 3 green, 15 blue, 14 red"),
       ("Game 5: 6 red, 1 blue, 3 green; 2 blue, 1 red, 2 green")] ⟨12, 13, 14⟩ =
      .ok 8 := by
  exact ⟨fun lines bag gs h => game_id_sum_eq bag h, fun bag => rfl, rfl⟩

/-- Claim C7 witness: the filtered-sum statement applied at a concrete
two-line input. -/
theorem game_id_sum_spec_witness :
    game_id_sum [("Game 1: 3 blue, 4 red"), ("Game 2: 1 blue, 2 green")] ⟨20, 20, 20⟩ =
      .ok (((([⟨1, 4, 0, 3⟩, ⟨2, 0, 2, 1⟩] : List GameData).filter
        (fun x => validate x ⟨20, 20, 20⟩)).map GameData.id).sum % U32MOD) :=
  game_id_sum_spec.1 [("Game 1: 3 blue, 4 red"), ("Game 2: 1 blue, 2 green")]
    ⟨20, 20, 20⟩ [⟨1, 4, 0, 3⟩, ⟨2, 0, 2, 1⟩] (by rfl)

/-- Claim C8: for parseable lines, power_sum returns the (u32) sum over
all records, with no validity filtering, of cube_power (the u32 product
of the three color maxima); the empty sequence gives Ok 0; the canonical
5-game sample gives Ok 2286. -/
theorem power_sum_spec :
    (∀ (lines : List String) (gs : List GameData),
      collectGames ((lines.filter (fun x => !x.isEmpty)).map GameData.from_str) = .ok gs →
      power_sum lines = .ok (((gs.map cube_power).sum) % U32MOD)) ∧
    power_sum [] = .ok 0 ∧
    power_sum
      [("Game 1: 3 blue, 4 red; 1 red, 2 green, 6 blue; 2 green"),
       ("Game 2: 1 blue, 2 green; 3 green, 4 blue, 1 red; 1 green, 1 blue"),
       ("Game 3: 8 green, 6 blue, 20 red; 5 blue, 4 red, 13 green; 5 green, 1 red"),
       ("Game 4: 1 green, 3 red, 6 blue; 3 green, 6 red; 3 green, 15 blue, 14 red"),
       ("Game 5: 6 red, 1 blue, 3 green; 2 blue, 1 red, 2 green")] = .ok 2286 := by
  exact ⟨fun lines gs h => power_sum_eq h, rfl, rfl⟩

/-- Claim C8 witness: the power-sum statement applied at a concrete
one-line input. -/
theorem power_sum_spec_witness :
    power_sum [("Game 1: 2 red, 3 green, 4 blue")] =
      .ok (((([⟨1, 2, 3, 4⟩] : List GameData).map cube_power).sum) % U32MOD) :=
  power_sum_spec.1 [("Game 1: 2 red, 3 green, 4 blue")] [⟨1, 2, 3, 4⟩] (by rfl)

/-- Claim C9: validate returns true iff each recorded color maximum is
at most the bag's capacity for the same color; it is a pure total
function of the record and the bag. -/
theorem validate_spec (data : GameData) (bag : Bag) :
    validate data bag = true ↔
      (data.red ≤ bag.red ∧ data.green ≤ bag.green ∧ data.blue ≤ bag.blue) := by
  simp [validate, Bool.and_eq_true, decide_eq_true_eq, and_assoc]

/-- Claim C10: all arithmetic in calibration, calibration_sum,
game_id_sum, cube_power and power_sum is 32-bit unsigned: each returned
integer is the mathematical value reduced modulo 2^32 (so it equals the
mathematical sum or product exactly whenever that value is below 2^32,
and wraps rather than being handled otherwise). -/
theorem arithmetic_u32 :
    (∀ data : GameData, cube_power data = (data.red * data.green * data.blue) % U32MOD) ∧
    (∀ data : GameData, data.red * data.green * data.blue < U32MOD →
      cube_power data = data.red * data.green * data.blue) ∧
    (∀ line v, calibration line = .ok v → v ≤ 99 ∧ v < U32MOD) ∧
    (∀ lines : List String,
      (∀ l ∈ lines.filter (fun x => !x.isEmpty), ∃ v, calibration l = .ok v) →
      calibration_sum lines =
        .ok ((((lines.filter (fun x => !x.isEmpty)).map
          (fun l => okVal (calibration l))).sum) % U32MOD)) ∧
    (∀ (lines : List String) (bag : Bag) (gs : List GameData),
      collectGames ((lines.filter (fun x => !x.isEmpty)).map GameData.from_str) = .ok gs →
      game_id_sum lines bag =
        .ok ((((gs.filter (fun x => validate x bag)).map GameData.id).sum) % U32MOD) ∧
      ((((gs.filter (fun x => validate x bag)).map GameData.id).sum) < U32MOD →
        game_id_sum lines bag =
          .ok (((gs.filter (fun x => validate x bag)).map GameData.id).sum)) ∧
      power_sum lines = .ok (((gs.map cube_power).sum) % U32MOD) ∧
      (((gs.map cube_power).sum) < U32MOD →
        power_sum lines = .ok ((gs.map cube_power).sum))) := by
  refine ⟨?_, ?_, ?_, fun lines h => calibration_sum_ok_of h, ?_⟩
  · intro data
    rw [cube_power, u32mul, u32mul, Nat.mod_mul_mod]
  · intro data h
    rw [cube_power, u32mul, u32mul, Nat.mod_mul_mod, Nat.mod_eq_of_lt h]
  · intro line v h
    cases hscan : scanTokens line.data with
    | nil => rw [calibration_error_of_empty_scan hscan] at h; cases h
    | cons t ts =>
      obtain ⟨f, l, last, -, -, -, hf1, hf9, hl1, hl9, hcal⟩ :=
        calibration_eval line t ts hscan
      rw [hcal] at h
      injection h with hv
      have hm : (2 : Nat) ^ 32 = 4294967296 := by norm_num
      constructor
      · omega
      · rw [U32MOD, hm]; omega
  · intro lines bag gs h
    refine ⟨game_id_sum_eq bag h, ?_, power_sum_eq h, ?_⟩
    · intro hlt
      rw [game_id_sum_eq bag h, Nat.mod_eq_of_lt hlt]
    · intro hlt
      rw [power_sum_eq h, Nat.mod_eq_of_lt hlt]

/-- Claim C10 witness: the u32 facts applied at a concrete record whose
cube product exceeds 2^32 (wrapping to 0) and at a concrete line. -/
theorem arithmetic_u32_witness :
    cube_power ⟨7, 65536, 65536, 2⟩ = (65536 * 65536 * 2) % U32MOD ∧
      calibration_sum [("1abc2")] = .ok ((12 : Nat) % U32MOD) := by
  constructor
  · exact arithmetic_u32.1 ⟨7, 65536, 65536, 2⟩
  · have h := arithmetic_u32.2.2.2.1 [("1abc2")]
      (by
        intro l hl
        rcases List.mem_cons.mp hl with rfl | hl
        · exact ⟨12, rfl⟩
        · cases hl)
    exact h

